import Mathlib

/-!
Verification of the Hull events calendar generator
(`generate_hull_calendar.py`): a shallow embedding of the ICS
serialization pipeline (`_escape`, `format_dt`, `build_ics`) together
with theorems about its behaviour.

Python strings are modelled as `List Char`; `datetime.date` and
`datetime.datetime` values are modelled by explicit field records with
an optional UTC offset (in seconds).  The system local timezone, which
Python's `datetime.astimezone` consults for naive datetimes, is
modelled as a fixed UTC offset parameter `loc` (in seconds).
-/

/-- Python `str` values, modelled as lists of characters. -/
abbrev Str := List Char

/-! ### Text escaping (`_escape`, source lines 47-50) -/

/-- One pass of Python's `str.replace` for a single-character pattern
`c`, replacing every occurrence by `r`.  (All four `replace` calls in
`_escape` have single-character patterns, for which `str.replace` acts
independently on each character.) -/
def replaceChar (c : Char) (r : Str) : Str → Str
  | [] => []
  | x :: xs => (if x = c then r else [x]) ++ replaceChar c r xs

/-- `_escape` (source lines 47-50): empty/falsy text maps to `""`;
otherwise backslash, newline, comma and semicolon are escaped, in that
order, exactly as the chained `replace` calls do. -/
def _escape (text : Str) : Str :=
  if text = [] then []
  else
    replaceChar ';' ['\\', ';']
      (replaceChar ',' ['\\', ',']
        (replaceChar '\n' ['\\', 'n']
          (replaceChar '\\' ['\\', '\\'] text)))

/-- The per-character escaping rule realised by `_escape`. -/
def escChar (c : Char) : Str :=
  if c = '\\' then ['\\', '\\']
  else if c = '\n' then ['\\', 'n']
  else if c = ',' then ['\\', ',']
  else if c = ';' then ['\\', ';']
  else [c]

/-- Character-wise rendering of the escaping rule. -/
def escAux : Str → Str
  | [] => []
  | c :: t => escChar c ++ escAux t

/-- The inverse unescape rule of the ICS text format: a backslash
followed by `n` decodes to a newline, and a backslash followed by any
other character decodes to that character. -/
def unescape : Str → Str
  | [] => []
  | [c] => [c]
  | a :: b :: rest =>
    if a = '\\' then (if b = 'n' then '\n' else b) :: unescape rest
    else a :: unescape (b :: rest)

theorem replaceChar_append (c : Char) (r a b : Str) :
    replaceChar c r (a ++ b) = replaceChar c r a ++ replaceChar c r b := by
  induction a with
  | nil => rfl
  | cons x xs ih => simp [replaceChar, ih]

theorem escAux_append (a b : Str) :
    escAux (a ++ b) = escAux a ++ escAux b := by
  induction a with
  | nil => rfl
  | cons x xs ih => simp [escAux, ih]

/-- The chained single-character replaces of `_escape` coincide with
the per-character rule `escChar`, applied pointwise. -/
theorem _escape_eq_escAux (s : Str) : _escape s = escAux s := by
  unfold _escape
  split
  · subst s; rfl
  · clear * -
    induction s with
    | nil => rfl
    | cons x xs ih =>
      have hx : replaceChar '\\' ['\\', '\\'] (x :: xs) =
          replaceChar '\\' ['\\', '\\'] [x] ++
            replaceChar '\\' ['\\', '\\'] xs := by
        simpa using replaceChar_append '\\' ['\\', '\\'] [x] xs
      rw [hx, replaceChar_append, replaceChar_append, replaceChar_append]
      rw [escAux, ← ih]
      congr 1
      by_cases h1 : x = '\\'
      · subst h1; rfl
      · by_cases h2 : x = '\n'
        · subst h2; rfl
        · by_cases h3 : x = ','
          · subst h3; rfl
          · by_cases h4 : x = ';'
            · subst h4; rfl
            · simp [replaceChar, escChar, h1, h2, h3, h4]

theorem unescape_cons_of_ne (c : Char) (t : Str) (h : c ≠ '\\') :
    unescape (c :: t) = c :: unescape t := by
  cases t with
  | nil => rfl
  | cons b rest => simp [unescape, h]

theorem unescape_escAux (s : Str) : unescape (escAux s) = s := by
  induction s with
  | nil => rfl
  | cons c t ih =>
    rw [escAux]
    by_cases h1 : c = '\\'
    · subst h1; simpa [escChar, unescape] using ih
    · by_cases h2 : c = '\n'
      · subst h2; simpa [escChar, unescape] using ih
      · by_cases h3 : c = ','
        · subst h3; simpa [escChar, unescape] using ih
        · by_cases h4 : c = ';'
          · subst h4; simpa [escChar, unescape] using ih
          · rw [escChar]
            simp only [h1, h2, h3, h4, if_false]
            rw [List.singleton_append, unescape_cons_of_ne c _ h1, ih]

/-- C3: `_escape` escapes backslash first, then newline, comma and
semicolon; unescaping is a left inverse of `_escape` on all strings,
and every character of the input contributes its escape sequence as an
infix of the escaped output. -/
theorem escape_unescape_roundtrip (s : Str) :
    unescape (_escape s) = s ∧ ∀ c ∈ s, escChar c <:+: _escape s := by
  constructor
  · rw [_escape_eq_escAux, unescape_escAux]
  · intro c hc
    obtain ⟨p, q, rfl⟩ := List.append_of_mem hc
    rw [_escape_eq_escAux]
    refine ⟨escAux p, escAux q, ?_⟩
    rw [escAux_append, List.append_assoc]
    congr 1

/-- Witness for C3 (the spec's own concrete scenario):
`"A, B; C\nD"` escapes to `"A\, B\; C\\nD"` and round-trips. -/
theorem escape_unescape_roundtrip_witness :
    unescape (_escape "A, B; C\nD".toList) = "A, B; C\nD".toList ∧
      ∀ c ∈ "A, B; C\nD".toList, escChar c <:+: _escape "A, B; C\nD".toList :=
  escape_unescape_roundtrip "A, B; C\nD".toList

/-- The escaped output never contains a raw newline. -/
theorem escape_no_newline (s : Str) : '\n' ∉ _escape s := by
  rw [_escape_eq_escAux]
  induction s with
  | nil => simp [escAux]
  | cons c t ih =>
    rw [escAux]
    intro hmem
    rcases List.mem_append.mp hmem with h | h
    · revert h
      by_cases h1 : c = '\\'
      · subst h1; decide
      · by_cases h2 : c = '\n'
        · subst h2; decide
        · by_cases h3 : c = ','
          · subst h3; decide
          · by_cases h4 : c = ';'
            · subst h4; decide
            · simp [escChar, h1, h2, h3, h4]
              exact fun h => h2 h.symm
    · exact ih h

/-! ### Proleptic Gregorian calendar arithmetic

Python's `datetime` stores year/month/day/hour/minute/second fields and
implements `astimezone` by exact timedelta arithmetic on those fields,
i.e. by converting to a linear day count (`toordinal`) and back
(`fromordinal`).  `daysFromCivil`/`civilFromDays` below are that
correspondence between proleptic Gregorian dates and days since
1970-01-01, written division-only (Howard Hinnant's algorithm, which
computes the same bijection as Python's ordinal maps). -/

/-- Days since 1970-01-01 of the proleptic Gregorian date `(y, m, d)`. -/
def daysFromCivil (y m d : Int) : Int :=
  let y' := y - (if m ≤ 2 then 1 else 0)
  let era := y' / 400
  let yoe := y' - era * 400
  let doy := (153 * (m + (if m > 2 then -3 else 9)) + 2) / 5 + d - 1
  let doe := yoe * 365 + yoe / 4 - yoe / 100 + doy
  era * 146097 + doe - 719468

/-- The proleptic Gregorian date `(y, m, d)` of day `z`, counted from
1970-01-01. -/
def civilFromDays (z : Int) : Int × Int × Int :=
  let z' := z + 719468
  let era := z' / 146097
  let doe := z' - era * 146097
  let yoe := (doe - doe / 1460 + doe / 36524 - doe / 146096) / 365
  let y := yoe + era * 400
  let doy := doe - (365 * yoe + yoe / 4 - yoe / 100)
  let mp := (5 * doy + 2) / 153
  let d := doy - (153 * mp + 2) / 5 + 1
  let m := mp + (if mp < 10 then 3 else -9)
  (y + (if m ≤ 2 then 1 else 0), m, d)

set_option maxHeartbeats 4000000 in
theorem yoe_doy_bounds (doe : Int) (h0 : 0 ≤ doe) (h1 : doe < 146097) :
    0 ≤ (doe - doe / 1460 + doe / 36524 - doe / 146096) / 365 ∧
    (doe - doe / 1460 + doe / 36524 - doe / 146096) / 365 ≤ 399 ∧
    (0 ≤ doe - (365 * ((doe - doe / 1460 + doe / 36524 - doe / 146096) / 365) +
        ((doe - doe / 1460 + doe / 36524 - doe / 146096) / 365) / 4 -
        ((doe - doe / 1460 + doe / 36524 - doe / 146096) / 365) / 100) ∧
    doe - (365 * ((doe - doe / 1460 + doe / 36524 - doe / 146096) / 365) +
        ((doe - doe / 1460 + doe / 36524 - doe / 146096) / 365) / 4 -
        ((doe - doe / 1460 + doe / 36524 - doe / 146096) / 365) / 100) ≤ 366) := by
  set yoe := (doe - doe / 1460 + doe / 36524 - doe / 146096) / 365 with hyoe
  have hb0 : 0 ≤ yoe := by omega
  have hb1 : yoe ≤ 399 := by omega
  refine ⟨hb0, hb1, ?_⟩
  interval_cases yoe <;> omega

theorem daysFromCivil_parts (era doe yoe doy mp m d y : Int)
    (h0 : 0 ≤ doe) (h1 : doe < 146097)
    (hyoe : yoe = (doe - doe / 1460 + doe / 36524 - doe / 146096) / 365)
    (hdoy : doy = doe - (365 * yoe + yoe / 4 - yoe / 100))
    (hmp : mp = (5 * doy + 2) / 153)
    (hd : d = doy - (153 * mp + 2) / 5 + 1)
    (hm : m = mp + (if mp < 10 then 3 else -9))
    (hy : y = yoe + era * 400 + (if m ≤ 2 then 1 else 0)) :
    daysFromCivil y m d = era * 146097 + doe - 719468 := by
  have h := yoe_doy_bounds doe h0 h1
  rw [← hyoe] at h
  unfold daysFromCivil
  simp only
  have e1 : y - (if m ≤ 2 then 1 else 0) = yoe + era * 400 := by omega
  rw [e1]
  have e2 : (yoe + era * 400) / 400 = era := by omega
  rw [e2]
  have e3 : yoe + era * 400 - era * 400 = yoe := by ring
  rw [e3]
  omega

/-- The Gregorian conversions are mutually inverse: recombining the
fields produced by `civilFromDays` recovers the day number. -/
theorem daysFromCivil_civilFromDays (z : Int) :
    daysFromCivil (civilFromDays z).1 (civilFromDays z).2.1 (civilFromDays z).2.2 = z := by
  unfold civilFromDays
  simp only
  rw [daysFromCivil_parts ((z + 719468) / 146097)
    ((z + 719468) - (z + 719468) / 146097 * 146097) _ _ _ _ _ _
    (by omega) (by omega) rfl rfl rfl rfl rfl rfl]
  omega

theorem civilFromDays_parts_bounds (doe yoe doy mp m d : Int)
    (h0 : 0 ≤ doe) (h1 : doe < 146097)
    (hyoe : yoe = (doe - doe / 1460 + doe / 36524 - doe / 146096) / 365)
    (hdoy : doy = doe - (365 * yoe + yoe / 4 - yoe / 100))
    (hmp : mp = (5 * doy + 2) / 153)
    (hd : d = doy - (153 * mp + 2) / 5 + 1)
    (hm : m = mp + (if mp < 10 then 3 else -9)) :
    1 ≤ m ∧ m ≤ 12 ∧ 1 ≤ d ∧ d ≤ 31 := by
  have h := yoe_doy_bounds doe h0 h1
  rw [← hyoe] at h
  omega

/-- The date fields produced by `civilFromDays` are in range. -/
theorem civilFromDays_bounds (z : Int) :
    1 ≤ (civilFromDays z).2.1 ∧ (civilFromDays z).2.1 ≤ 12 ∧
    1 ≤ (civilFromDays z).2.2 ∧ (civilFromDays z).2.2 ≤ 31 := by
  unfold civilFromDays
  simp only
  exact civilFromDays_parts_bounds
    ((z + 719468) - (z + 719468) / 146097 * 146097) _ _ _ _ _
    (by omega) (by omega) rfl rfl rfl rfl rfl

/-! ### Datetimes, instants and `astimezone` -/

/-- A Python `datetime.datetime` value: calendar/time fields plus an
optional fixed UTC offset `tz` in seconds (`none` = naive). -/
structure PyDateTime where
  year : Int
  month : Int
  day : Int
  hour : Int
  minute : Int
  second : Int
  tz : Option Int
deriving DecidableEq

/-- Seconds since 1970-01-01T00:00:00 of the naive field reading of a
datetime (ignoring `tz`). -/
def toSeconds (t : PyDateTime) : Int :=
  daysFromCivil t.year t.month t.day * 86400 +
    t.hour * 3600 + t.minute * 60 + t.second

/-- The UTC datetime whose naive field reading is `n` seconds since
1970-01-01T00:00:00. -/
def fromSeconds (n : Int) : PyDateTime :=
  let c := civilFromDays (n / 86400)
  { year := c.1, month := c.2.1, day := c.2.2,
    hour := n % 86400 / 3600, minute := n % 86400 % 3600 / 60,
    second := n % 86400 % 60, tz := some 0 }

/-- `dt.astimezone(datetime.timezone.utc)` (source lines 58-62): for an
aware datetime the instant is preserved by subtracting its own UTC
offset; for a naive datetime Python presumes the system local timezone,
modelled by the offset `loc`, and converts exactly the same way. -/
def astimezone_utc (dt : PyDateTime) (loc : Int) : PyDateTime :=
  fromSeconds (toSeconds dt - dt.tz.getD loc)

theorem toSeconds_fromSeconds (n : Int) : toSeconds (fromSeconds n) = n := by
  unfold toSeconds fromSeconds
  simp only
  rw [daysFromCivil_civilFromDays]
  omega

theorem fromSeconds_field_bounds (n : Int) :
    1 ≤ (fromSeconds n).month ∧ (fromSeconds n).month ≤ 12 ∧
    1 ≤ (fromSeconds n).day ∧ (fromSeconds n).day ≤ 31 ∧
    0 ≤ (fromSeconds n).hour ∧ (fromSeconds n).hour ≤ 23 ∧
    0 ≤ (fromSeconds n).minute ∧ (fromSeconds n).minute ≤ 59 ∧
    0 ≤ (fromSeconds n).second ∧ (fromSeconds n).second ≤ 59 := by
  have h := civilFromDays_bounds (n / 86400)
  unfold fromSeconds
  simp only
  refine ⟨h.1, h.2.1, h.2.2.1, h.2.2.2, ?_, ?_, ?_, ?_, ?_, ?_⟩ <;> omega

/-! ### `strftime`-style decimal formatting -/

/-- Decimal digit string of a natural number, most significant first
(fuelled so the kernel can evaluate it; `fuel = n + 1` always
suffices since a number has at most `n + 1` digits). -/
def natDigitsAux : Nat → Nat → Str
  | 0, _ => []
  | fuel + 1, n =>
    if n < 10 then [Nat.digitChar n]
    else natDigitsAux fuel (n / 10) ++ [Nat.digitChar (n % 10)]

/-- Decimal digit string of a natural number, most significant first. -/
def natDigits (n : Nat) : Str := natDigitsAux (n + 1) n

/-- Zero-padded decimal rendering to width `w`, as the `%0wd`
conversions of `strftime` produce for in-range fields. -/
def pad (w : Nat) (n : Int) : Str :=
  let ds := natDigits n.toNat
  List.replicate (w - ds.length) '0' ++ ds

/-- `strftime("%Y%m%d")` on a date. -/
def fmtYMD (y m d : Int) : Str := pad 4 y ++ pad 2 m ++ pad 2 d

/-- `strftime("%Y%m%dT%H%M%SZ")` on a datetime. -/
def fmtStamp (t : PyDateTime) : Str :=
  fmtYMD t.year t.month t.day ++ ['T'] ++
    pad 2 t.hour ++ pad 2 t.minute ++ pad 2 t.second ++ ['Z']

theorem natDigitsAux_length_le (fuel : Nat) : ∀ (n k : Nat), n < 10 ^ k → 0 < k →
    (natDigitsAux fuel n).length ≤ k := by
  induction fuel with
  | zero => intro n k _ _; simp [natDigitsAux]
  | succ fuel ih =>
    intro n k hn hk
    rw [natDigitsAux]
    split
    · simpa using hk
    · rename_i h10
      cases k with
      | zero => omega
      | succ k =>
        have h1 : n / 10 < 10 ^ k := by
          rw [Nat.div_lt_iff_lt_mul (by omega)]
          calc n < 10 ^ (k + 1) := hn
          _ = 10 ^ k * 10 := by ring
        have h2 : 0 < k := by
          by_contra hkz
          have : k = 0 := by omega
          subst this
          simp at h1
          omega
        have := ih (n / 10) k h1 h2
        simp only [List.length_append, List.length_cons, List.length_nil]
        omega

theorem natDigits_length_le (k : Nat) (n : Nat) (hn : n < 10 ^ k) (hk : 0 < k) :
    (natDigits n).length ≤ k :=
  natDigitsAux_length_le (n + 1) n k hn hk

theorem natDigitsAux_all_digit (fuel : Nat) :
    ∀ n : Nat, ∀ c ∈ natDigitsAux fuel n, c.isDigit := by
  induction fuel with
  | zero => intro n c hc; exact absurd hc (List.not_mem_nil c)
  | succ fuel ih =>
    intro n c hc
    rw [natDigitsAux] at hc
    split at hc
    · rename_i h10
      simp only [List.mem_singleton] at hc
      subst hc
      revert h10
      have : ∀ m : Nat, m < 10 → (Nat.digitChar m).isDigit = true := by decide
      exact this n
    · rcases List.mem_append.mp hc with h | h
      · exact ih (n / 10) c h
      · simp only [List.mem_singleton] at h
        subst h
        have : ∀ m : Nat, m < 10 → (Nat.digitChar m).isDigit = true := by decide
        exact this (n % 10) (Nat.mod_lt _ (by omega))

theorem natDigits_all_digit (n : Nat) : ∀ c ∈ natDigits n, c.isDigit :=
  natDigitsAux_all_digit (n + 1) n

theorem pad_length (w : Nat) (n : Int) (h : n.toNat < 10 ^ w) (hw : 0 < w) :
    (pad w n).length = w := by
  unfold pad
  simp only [List.length_append, List.length_replicate]
  have := natDigits_length_le w n.toNat h hw
  omega

theorem pad_all_digit (w : Nat) (n : Int) : ∀ c ∈ pad w n, c.isDigit := by
  intro c hc
  unfold pad at hc
  simp only at hc
  rcases List.mem_append.mp hc with h | h
  · have := List.eq_of_mem_replicate h
    subst this
    decide
  · exact natDigits_all_digit n.toNat c h

/-- `fmtYMD` is an 8-character all-digit stamp for in-range dates. -/
theorem fmtYMD_shape (y m d : Int) (hy : 0 ≤ y) (hy2 : y ≤ 9999)
    (hm : 0 ≤ m) (hm2 : m ≤ 12) (hd : 0 ≤ d) (hd2 : d ≤ 31) :
    (fmtYMD y m d).length = 8 ∧ ∀ c ∈ fmtYMD y m d, c.isDigit := by
  constructor
  · unfold fmtYMD
    simp only [List.length_append]
    rw [pad_length 4 y (by omega) (by omega),
        pad_length 2 m (by omega) (by omega),
        pad_length 2 d (by omega) (by omega)]
  · intro c hc
    unfold fmtYMD at hc
    rcases List.mem_append.mp hc with h | h
    · rcases List.mem_append.mp h with h2 | h2
      · exact pad_all_digit 4 y c h2
      · exact pad_all_digit 2 m c h2
    · exact pad_all_digit 2 d c h

/-! ### `format_dt` (source lines 52-63) -/

/-- The possible shapes of a truthy value stored under `start`/`end`:
a `datetime.date`, a `datetime.datetime`, or some other object on which
`format_dt` raises (`AttributeError` on `.tzinfo`/`.strftime`). -/
inductive PyVal where
  | date (year month day : Int)
  | datetime (dt : PyDateTime)
  | other
deriving DecidableEq

/-- `format_dt` (source lines 52-63).  A `date` that is not a
`datetime` is formatted as an 8-digit stamp with date-only flag `true`;
a `datetime` is converted to UTC with `astimezone` (naive values are
presumed to be in the system timezone `loc`) and formatted as a UTC
timestamp with flag `false`; anything else raises. -/
def format_dt (loc : Int) : PyVal → Except Unit (Str × Bool)
  | .date y m d => .ok (fmtYMD y m d, true)
  | .datetime dt => .ok (fmtStamp (astimezone_utc dt loc), false)
  | .other => .error ()

/-! ### Event records and `build_ics` (source lines 65-108) -/

/-- An input event record (a Python dict).  `none` models an absent
key; for `start`/`end` it also covers present-but-falsy values, which
the truthiness tests on source lines 81 and 93 treat identically. -/
structure Event where
  uid : Option Str := none
  summary : Option Str := none
  location : Option Str := none
  description : Option Str := none
  start : Option PyVal := none
  end_ : Option PyVal := none

/-- A log record emitted while serializing (`logging.warning` on source
line 82, `logging.exception` on source line 106). -/
inductive LogEntry where
  | warnNoStart (summary : Str)
  | errorEvent (summary : Option Str)
deriving DecidableEq

/-- `ev.get("uid") or str(uuid.uuid4())` (source line 76): the resolved
uid together with the new generator cursor.  `gen` models
`uuid.uuid4()`: its `c`-th call returns `gen c`. -/
def resolveUid (gen : Nat → Str) (c : Nat) (ev : Event) : Str × Nat :=
  match ev.uid with
  | some s => if s = [] then (gen c, c + 1) else (s, c)
  | none => (gen c, c + 1)

/-- The uid actually placed in the `UID:` line. -/
def resolvedUid (gen : Nat → Str) (c : Nat) (ev : Event) : Str :=
  (resolveUid gen c ev).1

/-- Whether processing the event calls `uuid.uuid4()` once (uid absent
or falsy). -/
def consumesGen (ev : Event) : Bool :=
  match ev.uid with
  | some s => s.isEmpty
  | none => true

/-- The four lines appended before the `end` field is examined
(source lines 85-91). -/
def preLines (uid nowstamp dtstr : Str) (isDateOnly : Bool) : List Str :=
  ["BEGIN:VEVENT".toList,
   "UID:".toList ++ uid,
   "DTSTAMP:".toList ++ nowstamp,
   (if isDateOnly then "DTSTART;VALUE=DATE:".toList
    else "DTSTART:".toList) ++ dtstr]

/-- The lines appended after the `end` field (source lines 99-104). -/
def postLines (summary location description : Str) : List Str :=
  ["SUMMARY:".toList ++ summary] ++
  (if location = [] then [] else ["LOCATION:".toList ++ location]) ++
  (if description = [] then []
   else ["DESCRIPTION:".toList ++ description]) ++
  ["END:VEVENT".toList]

/-- The `DTEND` line (source lines 94-98). -/
def endLine (endstr : Str) (endIsDate : Bool) : Str :=
  (if endIsDate then "DTEND;VALUE=DATE:".toList else "DTEND:".toList) ++ endstr

/-- The body of the `for ev in events` loop (source lines 74-106),
as a function from the uid-generator cursor `c` to the lines appended,
the log records emitted, and the new cursor.  An exception from
`format_dt` on `start` aborts the block before any line is appended;
one on `end` aborts it after the first four lines were appended. -/
def processEvent (loc : Int) (nowstamp : Str) (gen : Nat → Str) (c : Nat)
    (ev : Event) : List Str × List LogEntry × Nat :=
  let uid := (resolveUid gen c ev).1
  let c' := (resolveUid gen c ev).2
  let summary := _escape (ev.summary.getD "No title".toList)
  let location := _escape (ev.location.getD [])
  let description := _escape (ev.description.getD [])
  match ev.start with
  | none => ([], [LogEntry.warnNoStart summary], c')
  | some st =>
    match format_dt loc st with
    | .error _ => ([], [LogEntry.errorEvent ev.summary], c')
    | .ok (dtstr, isDateOnly) =>
      match ev.end_ with
      | none => (preLines uid nowstamp dtstr isDateOnly ++
          postLines summary location description, [], c')
      | some e =>
        match format_dt loc e with
        | .error _ =>
          (preLines uid nowstamp dtstr isDateOnly,
           [LogEntry.errorEvent ev.summary], c')
        | .ok (endstr, endIsDate) =>
          (preLines uid nowstamp dtstr isDateOnly ++ [endLine endstr endIsDate] ++
            postLines summary location description, [], c')

/-- Whether the `start` field is present and formats without raising
(the block is begun). -/
def startOk (loc : Int) (ev : Event) : Bool :=
  match ev.start with
  | none => false
  | some st =>
    match format_dt loc st with
    | .ok _ => true
    | .error _ => false

/-- Whether the `end` field, if present, formats without raising. -/
def endOk (loc : Int) (ev : Event) : Bool :=
  match ev.end_ with
  | none => true
  | some e =>
    match format_dt loc e with
    | .ok _ => true
    | .error _ => false

/-- Whether the event contributes a complete `BEGIN:VEVENT` ..
`END:VEVENT` block (it is not dropped). -/
def emitsBlock (loc : Int) (ev : Event) : Bool :=
  startOk loc ev && endOk loc ev

/-- The whole event loop: lines appended, log records, final cursor. -/
def runEvents (loc : Int) (nowstamp : Str) (gen : Nat → Str) (c : Nat) :
    List Event → List Str × List LogEntry × Nat
  | [] => ([], [], c)
  | ev :: rest =>
    let r := processEvent loc nowstamp gen c ev
    let rs := runEvents loc nowstamp gen r.2.2 rest
    (r.1 ++ rs.1, r.2.1 ++ rs.2.1, rs.2.2)

/-- The fixed document header (source lines 66-72). -/
def headerLines : List Str :=
  ["BEGIN:VCALENDAR".toList,
   "VERSION:2.0".toList,
   "CALSCALE:GREGORIAN".toList,
   "METHOD:PUBLISH".toList,
   "PRODID:-//Hull Events & Cinema//EN".toList]

/-- The document footer (source line 107). -/
def footerLine : Str := "END:VCALENDAR".toList

/-- The lines of the document and the log records of the run
(source lines 65-107). -/
def build_icsLines (loc : Int) (nowstamp : Str) (gen : Nat → Str)
    (events : List Event) : List Str × List LogEntry :=
  let r := runEvents loc nowstamp gen 0 events
  (headerLines ++ r.1 ++ [footerLine], r.2.1)

/-- CRLF, the line separator of the output document. -/
def crlf : Str := ['\r', '\n']

/-- `build_ics` (source lines 65-108): the CRLF-joined document. -/
def build_ics (loc : Int) (nowstamp : Str) (gen : Nat → Str)
    (events : List Event) : Str :=
  List.intercalate crlf (build_icsLines loc nowstamp gen events).1

/-! ### Line-shape facts -/

theorem take_append_eq {α : Type} (p s : List α) (n : Nat) (h : n = p.length) :
    (p ++ s).take n = p := by
  subst h
  induction p with
  | nil => simp
  | cons a t ih => simp [ih]

theorem drop_append_eq {α : Type} (p s : List α) (n : Nat) (h : n = p.length) :
    (p ++ s).drop n = s := by
  subst h
  induction p with
  | nil => simp
  | cons a t ih => simp [ih]

theorem take_append_le (n : Nat) (p s : Str) (h : n ≤ p.length) :
    (p ++ s).take n = p.take n := by
  induction p generalizing n with
  | nil =>
    have : n = 0 := by simpa using h
    subst this
    simp
  | cons a t ih =>
    cases n with
    | zero => simp
    | succ k =>
      simp only [List.cons_append, List.take_succ_cons, List.cons.injEq, true_and]
      exact ih k (by simpa using h)

/-- A line starting with tag `p` differs from any constant line `q`
that does not start with `p`. -/
theorem tagged_ne (p s q : Str) (h : q.take p.length ≠ p) : p ++ s ≠ q := by
  intro he
  exact h (by rw [← he, take_append_eq p s _ rfl])

theorem tagged_beq_false (p s q : Str) (h : q.take p.length ≠ p) :
    ((p ++ s) == q) = false := by
  rw [beq_eq_false_iff_ne]
  exact tagged_ne p s q h

/-- Extract the uid from a `UID:` line, if the line is one. -/
def uidOf (l : Str) : Option Str :=
  if l.take 4 = "UID:".toList then some (l.drop 4) else none

theorem uidOf_uid_line (s : Str) : uidOf ("UID:".toList ++ s) = some s := by
  unfold uidOf
  rw [take_append_eq _ _ 4 (by decide), if_pos rfl, drop_append_eq _ _ 4 (by decide)]

theorem uidOf_none_of_take (l : Str) (h : l.take 4 ≠ "UID:".toList) :
    uidOf l = none := by
  unfold uidOf
  rw [if_neg h]

theorem uidOf_tagged_none (p s : Str) (h4 : 4 ≤ p.length)
    (h : p.take 4 ≠ "UID:".toList) : uidOf (p ++ s) = none := by
  apply uidOf_none_of_take
  rw [take_append_le 4 p s h4]
  exact h


theorem dtstartTag_cases (flag : Bool) (s : Str) :
    ((if flag then "DTSTART;VALUE=DATE:".toList else "DTSTART:".toList) ++ s
        ≠ footerLine) ∧
    (((if flag then "DTSTART;VALUE=DATE:".toList else "DTSTART:".toList) ++ s)
        == "END:VEVENT".toList) = false ∧
    uidOf ((if flag then "DTSTART;VALUE=DATE:".toList
        else "DTSTART:".toList) ++ s) = none := by
  cases flag with
  | false =>
    rw [if_neg (by simp)]
    exact ⟨tagged_ne _ _ _ (by decide), tagged_beq_false _ _ _ (by decide),
      uidOf_tagged_none _ _ (by decide) (by decide)⟩
  | true =>
    rw [if_pos rfl]
    exact ⟨tagged_ne _ _ _ (by decide), tagged_beq_false _ _ _ (by decide),
      uidOf_tagged_none _ _ (by decide) (by decide)⟩

theorem endLine_facts (s : Str) (flag : Bool) :
    endLine s flag ≠ footerLine ∧
    ((endLine s flag) == "END:VEVENT".toList) = false ∧
    uidOf (endLine s flag) = none := by
  unfold endLine
  cases flag with
  | false =>
    rw [if_neg (by simp)]
    exact ⟨tagged_ne _ _ _ (by decide), tagged_beq_false _ _ _ (by decide),
      uidOf_tagged_none _ _ (by decide) (by decide)⟩
  | true =>
    rw [if_pos rfl]
    exact ⟨tagged_ne _ _ _ (by decide), tagged_beq_false _ _ _ (by decide),
      uidOf_tagged_none _ _ (by decide) (by decide)⟩

theorem preLines_facts (uid ns dtstr : Str) (flag : Bool) :
    (∀ l ∈ preLines uid ns dtstr flag, l ≠ footerLine) ∧
    (preLines uid ns dtstr flag).count "END:VEVENT".toList = 0 ∧
    (preLines uid ns dtstr flag).filterMap uidOf = [uid] := by
  refine ⟨?_, ?_, ?_⟩
  · intro l hl
    unfold preLines at hl
    simp only [List.mem_cons, List.not_mem_nil, or_false] at hl
    rcases hl with rfl | rfl | rfl | rfl
    · decide
    · exact tagged_ne _ _ _ (by decide)
    · exact tagged_ne _ _ _ (by decide)
    · exact (dtstartTag_cases flag dtstr).1
  · unfold preLines
    simp only [List.count_cons, List.count_nil]
    rw [tagged_beq_false "UID:".toList _ _ (by decide),
        tagged_beq_false "DTSTAMP:".toList _ _ (by decide),
        (dtstartTag_cases flag dtstr).2.1]
    decide
  · unfold preLines
    simp only [List.filterMap_cons]
    rw [uidOf_uid_line,
        uidOf_tagged_none "DTSTAMP:".toList _ (by decide) (by decide),
        (dtstartTag_cases flag dtstr).2.2]
    rfl

theorem postLines_facts (sm lo de : Str) :
    (∀ l ∈ postLines sm lo de, l ≠ footerLine) ∧
    (postLines sm lo de).count "END:VEVENT".toList = 1 ∧
    (postLines sm lo de).filterMap uidOf = [] := by
  unfold postLines
  refine ⟨?_, ?_, ?_⟩
  · intro l hl
    simp only [List.append_assoc, List.cons_append, List.nil_append,
      List.mem_cons, List.mem_append] at hl
    rcases hl with rfl | hl
    · exact tagged_ne _ _ _ (by decide)
    rcases hl with hl | hl
    · split at hl
      · exact absurd hl (List.not_mem_nil l)
      · simp only [List.mem_singleton] at hl
        subst hl
        exact tagged_ne _ _ _ (by decide)
    rcases hl with hl | hl
    · split at hl
      · exact absurd hl (List.not_mem_nil l)
      · simp only [List.mem_singleton] at hl
        subst hl
        exact tagged_ne _ _ _ (by decide)
    · rcases hl with rfl | hl
      · decide
      · exact absurd hl (List.not_mem_nil l)
  · simp only [List.append_assoc, List.cons_append, List.nil_append,
      List.count_cons, List.count_append]
    rw [tagged_beq_false "SUMMARY:".toList _ _ (by decide)]
    have h1 : List.count "END:VEVENT".toList
        (if lo = [] then [] else ["LOCATION:".toList ++ lo]) = 0 := by
      split
      · rfl
      · simp only [List.count_cons, List.count_nil]
        rw [tagged_beq_false "LOCATION:".toList _ _ (by decide)]
        decide
    have h2 : List.count "END:VEVENT".toList
        (if de = [] then [] else ["DESCRIPTION:".toList ++ de]) = 0 := by
      split
      · rfl
      · simp only [List.count_cons, List.count_nil]
        rw [tagged_beq_false "DESCRIPTION:".toList _ _ (by decide)]
        decide
    rw [h1, h2]
    decide
  · simp only [List.append_assoc, List.cons_append, List.nil_append,
      List.filterMap_cons, List.filterMap_append]
    rw [uidOf_tagged_none "SUMMARY:".toList _ (by decide) (by decide)]
    have h1 : List.filterMap uidOf
        (if lo = [] then [] else ["LOCATION:".toList ++ lo]) = [] := by
      split
      · rfl
      · simp only [List.filterMap_cons]
        rw [uidOf_tagged_none "LOCATION:".toList _ (by decide) (by decide)]
        rfl
    have h2 : List.filterMap uidOf
        (if de = [] then [] else ["DESCRIPTION:".toList ++ de]) = [] := by
      split
      · rfl
      · simp only [List.filterMap_cons]
        rw [uidOf_tagged_none "DESCRIPTION:".toList _ (by decide) (by decide)]
        rfl
    rw [h1, h2]
    rfl

theorem resolveUid_snd (gen : Nat → Str) (c : Nat) (ev : Event) :
    (resolveUid gen c ev).2 = c + (if consumesGen ev then 1 else 0) := by
  unfold resolveUid consumesGen
  cases ev.uid with
  | none => simp
  | some s =>
    cases s with
    | nil => simp
    | cons a t => simp

/-- Combined behavioural facts about one loop iteration: no line it
appends equals the document footer; it appends one `END:VEVENT` line
when the record survives and none otherwise; its `UID:` lines carry
exactly the resolved uid when the block is begun; and it advances the
uuid cursor exactly when `uuid.uuid4()` was called. -/
theorem processEvent_spec (loc : Int) (ns : Str) (gen : Nat → Str) (c : Nat)
    (ev : Event) :
    (∀ l ∈ (processEvent loc ns gen c ev).1, l ≠ footerLine) ∧
    (processEvent loc ns gen c ev).1.count "END:VEVENT".toList
      = (if emitsBlock loc ev then 1 else 0) ∧
    (processEvent loc ns gen c ev).1.filterMap uidOf
      = (if startOk loc ev then [resolvedUid gen c ev] else []) ∧
    (processEvent loc ns gen c ev).2.2 = c + (if consumesGen ev then 1 else 0) := by
  have hc := resolveUid_snd gen c ev
  cases hst : ev.start with
  | none =>
    refine ⟨?_, ?_, ?_, ?_⟩ <;>
      simp [processEvent, startOk, emitsBlock, hst, hc]
  | some st =>
    cases hfmt : format_dt loc st with
    | error e =>
      refine ⟨?_, ?_, ?_, ?_⟩ <;>
        simp [processEvent, startOk, emitsBlock, hst, hfmt, hc]
    | ok p =>
      obtain ⟨dtstr, flag⟩ := p
      have hp := preLines_facts (resolvedUid gen c ev) ns dtstr flag
      have hq := postLines_facts (_escape (ev.summary.getD "No title".toList))
        (_escape (ev.location.getD [])) (_escape (ev.description.getD []))
      cases hend : ev.end_ with
      | none =>
        have hlines : (processEvent loc ns gen c ev).1 =
            preLines (resolvedUid gen c ev) ns dtstr flag ++
            postLines (_escape (ev.summary.getD "No title".toList))
              (_escape (ev.location.getD [])) (_escape (ev.description.getD [])) := by
          simp [processEvent, hst, hfmt, hend, resolvedUid]
        have hcur : (processEvent loc ns gen c ev).2.2 = (resolveUid gen c ev).2 := by
          simp [processEvent, hst, hfmt, hend]
        have hok : emitsBlock loc ev = true := by
          simp [emitsBlock, startOk, endOk, hst, hfmt, hend]
        have hsok : startOk loc ev = true := by
          simp [startOk, hst, hfmt]
        refine ⟨?_, ?_, ?_, ?_⟩
        · rw [hlines]
          intro l hl
          rcases List.mem_append.mp hl with h | h
          · exact hp.1 l h
          · exact hq.1 l h
        · rw [hlines, List.count_append, hp.2.1, hq.2.1, hok]
          rfl
        · rw [hlines, List.filterMap_append, hp.2.2, hq.2.2, hsok]
          rfl
        · rw [hcur, hc]
      | some e2 =>
        cases hfe : format_dt loc e2 with
        | error u =>
          have hlines : (processEvent loc ns gen c ev).1 =
              preLines (resolvedUid gen c ev) ns dtstr flag := by
            simp [processEvent, hst, hfmt, hend, hfe, resolvedUid]
          have hcur : (processEvent loc ns gen c ev).2.2 = (resolveUid gen c ev).2 := by
            simp [processEvent, hst, hfmt, hend, hfe]
          have hok : emitsBlock loc ev = false := by
            simp [emitsBlock, startOk, endOk, hst, hfmt, hend, hfe]
          have hsok : startOk loc ev = true := by
            simp [startOk, hst, hfmt]
          refine ⟨?_, ?_, ?_, ?_⟩
          · rw [hlines]
            exact hp.1
          · rw [hlines, hp.2.1, hok]
            rfl
          · rw [hlines, hp.2.2, hsok]
            rfl
          · rw [hcur, hc]
        | ok q =>
          obtain ⟨endstr, eflag⟩ := q
          have he := endLine_facts endstr eflag
          have hlines : (processEvent loc ns gen c ev).1 =
              preLines (resolvedUid gen c ev) ns dtstr flag ++
              [endLine endstr eflag] ++
              postLines (_escape (ev.summary.getD "No title".toList))
                (_escape (ev.location.getD []))
                (_escape (ev.description.getD [])) := by
            simp [processEvent, hst, hfmt, hend, hfe, resolvedUid]
          have hcur : (processEvent loc ns gen c ev).2.2 = (resolveUid gen c ev).2 := by
            simp [processEvent, hst, hfmt, hend, hfe]
          have hok : emitsBlock loc ev = true := by
            simp [emitsBlock, startOk, endOk, hst, hfmt, hend, hfe]
          have hsok : startOk loc ev = true := by
            simp [startOk, hst, hfmt]
          refine ⟨?_, ?_, ?_, ?_⟩
          · rw [hlines]
            intro l hl
            rcases List.mem_append.mp hl with h | h
            · rcases List.mem_append.mp h with h2 | h2
              · exact hp.1 l h2
              · rw [List.mem_singleton] at h2
                subst h2
                exact he.1
            · exact hq.1 l h
          · rw [hlines, List.count_append, List.count_append, hp.2.1, hq.2.1,
              hok]
            simp only [List.count_cons, List.count_nil, he.2.1]
            rfl
          · rw [hlines, List.filterMap_append, List.filterMap_append,
              hp.2.2, hq.2.2, hsok]
            simp only [List.filterMap_cons, he.2.2]
            rfl
          · rw [hcur, hc]

theorem processEvent_noStart (loc : Int) (ns : Str) (gen : Nat → Str) (c : Nat)
    (ev : Event) (h : ev.start = none) :
    (processEvent loc ns gen c ev).1 = [] ∧
    (processEvent loc ns gen c ev).2.1 =
      [LogEntry.warnNoStart (_escape (ev.summary.getD "No title".toList))] := by
  refine ⟨?_, ?_⟩ <;> simp [processEvent, h]

theorem runEvents_append (loc : Int) (ns : Str) (gen : Nat → Str) :
    ∀ (l1 l2 : List Event) (c : Nat),
    runEvents loc ns gen c (l1 ++ l2) =
      ((runEvents loc ns gen c l1).1 ++
        (runEvents loc ns gen (runEvents loc ns gen c l1).2.2 l2).1,
       (runEvents loc ns gen c l1).2.1 ++
        (runEvents loc ns gen (runEvents loc ns gen c l1).2.2 l2).2.1,
       (runEvents loc ns gen (runEvents loc ns gen c l1).2.2 l2).2.2) := by
  intro l1
  induction l1 with
  | nil => intro l2 c; simp [runEvents]
  | cons ev rest ih =>
    intro l2 c
    simp only [List.cons_append, runEvents, List.append_eq, ih, List.append_assoc]

theorem runEvents_ne_footer (loc : Int) (ns : Str) (gen : Nat → Str) :
    ∀ (evs : List Event) (c : Nat),
    ∀ l ∈ (runEvents loc ns gen c evs).1, l ≠ footerLine := by
  intro evs
  induction evs with
  | nil => intro c l hl; exact absurd hl (List.not_mem_nil l)
  | cons ev rest ih =>
    intro c l hl
    rcases List.mem_append.mp hl with h | h
    · exact (processEvent_spec loc ns gen c ev).1 l h
    · exact ih _ l h

theorem runEvents_count (loc : Int) (ns : Str) (gen : Nat → Str) :
    ∀ (evs : List Event) (c : Nat),
    (runEvents loc ns gen c evs).1.count "END:VEVENT".toList
      = evs.countP (fun e => emitsBlock loc e) := by
  intro evs
  induction evs with
  | nil => intro c; rfl
  | cons ev rest ih =>
    intro c
    have hs := processEvent_spec loc ns gen c ev
    simp only [runEvents, List.count_append, List.countP_cons]
    rw [hs.2.1, hs.2.2.2, ih]
    split <;> omega

/-- The uid of each emitted `UID:` line, in order, with the uuid cursor
threaded through exactly as the loop does. -/
def emittedUids (loc : Int) (gen : Nat → Str) (c : Nat) :
    List Event → List Str
  | [] => []
  | ev :: rest =>
    (if startOk loc ev then [resolvedUid gen c ev] else []) ++
      emittedUids loc gen (c + (if consumesGen ev then 1 else 0)) rest

theorem runEvents_uids (loc : Int) (ns : Str) (gen : Nat → Str) :
    ∀ (evs : List Event) (c : Nat),
    (runEvents loc ns gen c evs).1.filterMap uidOf = emittedUids loc gen c evs := by
  intro evs
  induction evs with
  | nil => intro c; rfl
  | cons ev rest ih =>
    intro c
    have hs := processEvent_spec loc ns gen c ev
    simp only [runEvents, List.filterMap_append, emittedUids]
    rw [hs.2.2.1, hs.2.2.2, ih]

/-- The nonempty uids supplied by the input records, in order. -/
def providedUids : List Event → List Str
  | [] => []
  | ev :: rest =>
    (match ev.uid with
     | some s => if s = [] then [] else [s]
     | none => []) ++ providedUids rest

theorem emittedUids_mem (loc : Int) (gen : Nat → Str) :
    ∀ (evs : List Event) (c : Nat) (u : Str), u ∈ emittedUids loc gen c evs →
    u ∈ providedUids evs ∨ ∃ k, c ≤ k ∧ u = gen k := by
  intro evs
  induction evs with
  | nil => intro c u hu; exact absurd hu (List.not_mem_nil u)
  | cons ev rest ih =>
    intro c u hu
    simp only [emittedUids] at hu
    rcases List.mem_append.mp hu with h | h
    · split at h
      · rw [List.mem_singleton] at h
        subst h
        unfold resolvedUid resolveUid
        cases hev : ev.uid with
        | none => exact Or.inr ⟨c, Nat.le_refl c, by simp⟩
        | some s =>
          by_cases hs : s = []
          · subst hs
            exact Or.inr ⟨c, Nat.le_refl c, by simp⟩
          · left
            simp only [providedUids, hev, if_neg hs]
            exact List.mem_append.mpr (Or.inl (by simp [if_neg hs]))
      · exact absurd h (List.not_mem_nil u)
    · rcases ih _ u h with h2 | ⟨k, hk, rfl⟩
      · exact Or.inl (List.mem_append.mpr (Or.inr h2))
      · exact Or.inr ⟨k, by omega, rfl⟩

theorem emittedUids_nodup (loc : Int) (gen : Nat → Str) :
    ∀ (evs : List Event) (c : Nat),
    (providedUids evs).Nodup →
    (∀ (n : Nat) (s : Str), s ∈ providedUids evs → gen n ≠ s) →
    (∀ i j : Nat, i ≠ j → gen i ≠ gen j) →
    (emittedUids loc gen c evs).Nodup := by
  intro evs
  induction evs with
  | nil => intro c _ _ _; exact List.nodup_nil
  | cons ev rest ih =>
    intro c h1 h2 h3
    have hprov : providedUids (ev :: rest) =
        (match ev.uid with
         | some s => if s = [] then [] else [s]
         | none => []) ++ providedUids rest := rfl
    have h1r : (providedUids rest).Nodup := by
      rw [hprov] at h1
      exact h1.of_append_right
    have h2r : ∀ (n : Nat) (s : Str), s ∈ providedUids rest → gen n ≠ s := by
      intro n s hs
      exact h2 n s (by rw [hprov]; exact List.mem_append.mpr (Or.inr hs))
    simp only [emittedUids]
    by_cases hok : startOk loc ev = true
    · rw [if_pos hok]
      rw [List.singleton_append, List.nodup_cons]
      refine ⟨?_, ih _ h1r h2r h3⟩
      intro hx
      rcases emittedUids_mem loc gen rest _ _ hx with hmem | ⟨k, hk, hgen⟩
      · -- the head uid also occurs among the later provided uids
        unfold resolvedUid resolveUid at hmem
        cases hev : ev.uid with
        | none =>
          rw [hev] at hmem
          exact h2r c _ hmem rfl
        | some s =>
          by_cases hs : s = []
          · rw [hev] at hmem
            simp only [if_pos hs] at hmem
            exact h2r c _ hmem rfl
          · rw [hev] at hmem
            simp only [if_neg hs] at hmem
            rw [hprov, hev] at h1
            simp only [if_neg hs] at h1
            rw [List.singleton_append, List.nodup_cons] at h1
            exact h1.1 hmem
      · -- the head uid is a later generated uid
        unfold resolvedUid resolveUid at hgen
        cases hev : ev.uid with
        | none =>
          rw [hev] at hgen
          have hcons : consumesGen ev = true := by simp [consumesGen, hev]
          simp only [hcons, if_true] at hk
          exact h3 k c (by omega) hgen.symm
        | some s =>
          by_cases hs : s = []
          · rw [hev] at hgen
            simp only [if_pos hs] at hgen
            have hcons : consumesGen ev = true := by
              subst hs
              simp [consumesGen, hev]
            simp only [hcons, if_true] at hk
            exact h3 k c (by omega) hgen.symm
          · rw [hev] at hgen
            simp only [if_neg hs] at hgen
            have hsp : s ∈ providedUids (ev :: rest) := by
              rw [hprov, hev]
              simp only [if_neg hs]
              exact List.mem_append.mpr (Or.inl (by simp))
            exact h2 k s hsp hgen.symm
    · rw [if_neg hok, List.nil_append]
      exact ih _ h1r h2r h3

/-! ### Claim theorems -/

/-- C1 counterexample: with a system timezone one hour east of UTC
(offset 3600 s), `format_dt` on the naive timestamp
2024-06-01 19:30:00 emits `20240601T183000Z`, not the timestamp's own
fields `20240601T193000Z`: the naive value is not left unchanged but is
converted from local time to UTC. -/
theorem format_dt_naive_counterexample :
    format_dt 3600 (PyVal.datetime ⟨2024, 6, 1, 19, 30, 0, none⟩) =
      .ok ("20240601T183000Z".toList, false) ∧
    fmtStamp ⟨2024, 6, 1, 19, 30, 0, none⟩ = "20240601T193000Z".toList ∧
    ("20240601T183000Z".toList : Str) ≠ "20240601T193000Z".toList :=
  ⟨rfl, by decide, by decide⟩

/-- C1 (amended): a naive timestamp is presumed to be in the system
local timezone (offset `loc` seconds) and converted to UTC: the emitted
string is the UTC timestamp of the instant `toSeconds dt - loc`, i.e.
the timestamp's own fields shifted by the local offset; it equals the
unchanged fields exactly when the local offset is zero. -/
theorem format_dt_naive_local_to_utc (loc : Int) (dt : PyDateTime)
    (h : dt.tz = none) :
    ∃ u : PyDateTime,
      toSeconds u = toSeconds dt - loc ∧ u.tz = some 0 ∧
      1 ≤ u.month ∧ u.month ≤ 12 ∧ 1 ≤ u.day ∧ u.day ≤ 31 ∧
      0 ≤ u.hour ∧ u.hour ≤ 23 ∧ 0 ≤ u.minute ∧ u.minute ≤ 59 ∧
      0 ≤ u.second ∧ u.second ≤ 59 ∧
      format_dt loc (PyVal.datetime dt) = .ok (fmtStamp u, false) := by
  have e : astimezone_utc dt loc = fromSeconds (toSeconds dt - loc) := by
    unfold astimezone_utc
    rw [h]
    rfl
  have hb := fromSeconds_field_bounds (toSeconds dt - loc)
  refine ⟨astimezone_utc dt loc, ?_, ?_, ?_, ?_, ?_, ?_, ?_, ?_, ?_, ?_, ?_, ?_, rfl⟩
  · rw [e, toSeconds_fromSeconds]
  · rw [e]; rfl
  · rw [e]; exact hb.1
  · rw [e]; exact hb.2.1
  · rw [e]; exact hb.2.2.1
  · rw [e]; exact hb.2.2.2.1
  · rw [e]; exact hb.2.2.2.2.1
  · rw [e]; exact hb.2.2.2.2.2.1
  · rw [e]; exact hb.2.2.2.2.2.2.1
  · rw [e]; exact hb.2.2.2.2.2.2.2.1
  · rw [e]; exact hb.2.2.2.2.2.2.2.2.1
  · rw [e]; exact hb.2.2.2.2.2.2.2.2.2

/-- Witness for the amended C1, at the counterexample's input. -/
theorem format_dt_naive_local_to_utc_witness :
    ∃ u : PyDateTime,
      toSeconds u = toSeconds ⟨2024, 6, 1, 19, 30, 0, none⟩ - 3600 ∧
      u.tz = some 0 ∧
      1 ≤ u.month ∧ u.month ≤ 12 ∧ 1 ≤ u.day ∧ u.day ≤ 31 ∧
      0 ≤ u.hour ∧ u.hour ≤ 23 ∧ 0 ≤ u.minute ∧ u.minute ≤ 59 ∧
      0 ≤ u.second ∧ u.second ≤ 59 ∧
      format_dt 3600 (PyVal.datetime ⟨2024, 6, 1, 19, 30, 0, none⟩) =
        .ok (fmtStamp u, false) :=
  format_dt_naive_local_to_utc 3600 ⟨2024, 6, 1, 19, 30, 0, none⟩ rfl

/-- C2: with `start` a valid date but `end` a malformed object, the
exception raised by `format_dt(ev["end"])` leaves the already-appended
partial block in the document: the record does contribute lines (an
unterminated `BEGIN:VEVENT` with no matching `END:VEVENT`), so the
output differs from the run without the record. -/
theorem build_ics_partial_block_on_end_fault :
    ("BEGIN:VEVENT".toList ∈ (build_icsLines 0 "TS".toList (fun _ => "G".toList)
      [{ summary := some "X".toList, start := some (PyVal.date 2025 1 2),
         end_ := some PyVal.other }]).1) ∧
    ("END:VEVENT".toList ∉ (build_icsLines 0 "TS".toList (fun _ => "G".toList)
      [{ summary := some "X".toList, start := some (PyVal.date 2025 1 2),
         end_ := some PyVal.other }]).1) ∧
    build_ics 0 "TS".toList (fun _ => "G".toList)
      [{ summary := some "X".toList, start := some (PyVal.date 2025 1 2),
         end_ := some PyVal.other }] ≠
      build_ics 0 "TS".toList (fun _ => "G".toList) [] :=
  ⟨by decide, by decide, by decide⟩

/-- C4: the document always consists of the five fixed header lines,
then the event lines, then exactly one `END:VCALENDAR` footer line, all
joined with CRLF. -/
theorem build_ics_header_footer_crlf (loc : Int) (ns : Str) (gen : Nat → Str)
    (evs : List Event) :
    (build_icsLines loc ns gen evs).1.take 5 = headerLines ∧
    (build_icsLines loc ns gen evs).1.count footerLine = 1 ∧
    (build_icsLines loc ns gen evs).1.getLast? = some footerLine ∧
    build_ics loc ns gen evs =
      List.intercalate crlf (build_icsLines loc ns gen evs).1 := by
  have hb : (build_icsLines loc ns gen evs).1 =
      headerLines ++ ((runEvents loc ns gen 0 evs).1 ++ [footerLine]) := by
    simp [build_icsLines]
  refine ⟨?_, ?_, ?_, rfl⟩
  · rw [hb]
    exact take_append_eq headerLines _ 5 (by decide)
  · rw [hb, List.count_append, List.count_append]
    have h0 : headerLines.count footerLine = 0 := by decide
    have h1 : (runEvents loc ns gen 0 evs).1.count footerLine = 0 := by
      rw [List.count_eq_zero]
      intro hmem
      exact runEvents_ne_footer loc ns gen evs 0 footerLine hmem rfl
    rw [h0, h1]
    decide
  · rw [hb, ← List.append_assoc]
    exact List.getLast?_concat _

/-- C5: a record whose `start` is a date-only value (with the field
ranges Python's `date` type guarantees) gets a
`DTSTART;VALUE=DATE:` line carrying the 8-digit `YYYYMMDD` stamp. -/
theorem build_ics_date_only_start (loc : Int) (ns : Str) (gen : Nat → Str)
    (c : Nat) (ev : Event) (y m d : Int)
    (hst : ev.start = some (PyVal.date y m d))
    (hy1 : 1 ≤ y) (hy2 : y ≤ 9999) (hm1 : 1 ≤ m) (hm2 : m ≤ 12)
    (hd1 : 1 ≤ d) (hd2 : d ≤ 31) :
    ("DTSTART;VALUE=DATE:".toList ++ fmtYMD y m d) ∈
        (processEvent loc ns gen c ev).1 ∧
    (fmtYMD y m d).length = 8 ∧ (∀ ch ∈ fmtYMD y m d, ch.isDigit) := by
  have hshape := fmtYMD_shape y m d (by omega) hy2 (by omega) hm2 (by omega) hd2
  refine ⟨?_, hshape.1, hshape.2⟩
  have hpre : ∀ u : Str, ("DTSTART;VALUE=DATE:".toList ++ fmtYMD y m d) ∈
      preLines u ns (fmtYMD y m d) true := by
    intro u
    simp [preLines]
  have hfmt : format_dt loc (PyVal.date y m d) = .ok (fmtYMD y m d, true) := rfl
  cases hend : ev.end_ with
  | none =>
    have hl : (processEvent loc ns gen c ev).1 =
        preLines (resolveUid gen c ev).1 ns (fmtYMD y m d) true ++
        postLines (_escape (ev.summary.getD "No title".toList))
          (_escape (ev.location.getD [])) (_escape (ev.description.getD [])) := by
      simp [processEvent, hst, hend, hfmt]
    rw [hl]
    exact List.mem_append.mpr (Or.inl (hpre _))
  | some e2 =>
    cases hfe : format_dt loc e2 with
    | error u =>
      have hl : (processEvent loc ns gen c ev).1 =
          preLines (resolveUid gen c ev).1 ns (fmtYMD y m d) true := by
        simp [processEvent, hst, hend, hfe, hfmt]
      rw [hl]
      exact hpre _
    | ok q =>
      have hl : (processEvent loc ns gen c ev).1 =
          preLines (resolveUid gen c ev).1 ns (fmtYMD y m d) true ++
          [endLine q.1 q.2] ++
          postLines (_escape (ev.summary.getD "No title".toList))
            (_escape (ev.location.getD [])) (_escape (ev.description.getD [])) := by
        simp [processEvent, hst, hend, hfe, hfmt]
      rw [hl]
      exact List.mem_append.mpr (Or.inl (List.mem_append.mpr (Or.inl (hpre _))))

/-- Witness for C5 at a concrete record. -/
theorem build_ics_date_only_start_witness :
    ("DTSTART;VALUE=DATE:".toList ++ fmtYMD 2025 11 11) ∈
        (processEvent 0 "T".toList (fun _ => "G".toList) 0
          { summary := some "W".toList,
            start := some (PyVal.date 2025 11 11) }).1 ∧
    (fmtYMD 2025 11 11).length = 8 ∧ (∀ ch ∈ fmtYMD 2025 11 11, ch.isDigit) :=
  build_ics_date_only_start 0 "T".toList (fun _ => "G".toList) 0
    { summary := some "W".toList, start := some (PyVal.date 2025 11 11) }
    2025 11 11 rfl (by decide) (by decide) (by decide) (by decide)
    (by decide) (by decide)

/-- C6: a timestamp carrying explicit timezone information (offset
`off` seconds) is emitted as the UTC timestamp of the same instant:
the formatted fields `u` are in range, carry the UTC zone, and their
naive second count equals the original instant `toSeconds dt - off`. -/
theorem format_dt_aware_utc (loc off : Int) (dt : PyDateTime)
    (h : dt.tz = some off) :
    ∃ u : PyDateTime,
      toSeconds u = toSeconds dt - off ∧ u.tz = some 0 ∧
      1 ≤ u.month ∧ u.month ≤ 12 ∧ 1 ≤ u.day ∧ u.day ≤ 31 ∧
      0 ≤ u.hour ∧ u.hour ≤ 23 ∧ 0 ≤ u.minute ∧ u.minute ≤ 59 ∧
      0 ≤ u.second ∧ u.second ≤ 59 ∧
      format_dt loc (PyVal.datetime dt) = .ok (fmtStamp u, false) := by
  have e : astimezone_utc dt loc = fromSeconds (toSeconds dt - off) := by
    unfold astimezone_utc
    rw [h]
    rfl
  have hb := fromSeconds_field_bounds (toSeconds dt - off)
  refine ⟨astimezone_utc dt loc, ?_, ?_, ?_, ?_, ?_, ?_, ?_, ?_, ?_, ?_, ?_, ?_, rfl⟩
  · rw [e, toSeconds_fromSeconds]
  · rw [e]; rfl
  · rw [e]; exact hb.1
  · rw [e]; exact hb.2.1
  · rw [e]; exact hb.2.2.1
  · rw [e]; exact hb.2.2.2.1
  · rw [e]; exact hb.2.2.2.2.1
  · rw [e]; exact hb.2.2.2.2.2.1
  · rw [e]; exact hb.2.2.2.2.2.2.1
  · rw [e]; exact hb.2.2.2.2.2.2.2.1
  · rw [e]; exact hb.2.2.2.2.2.2.2.2.1
  · rw [e]; exact hb.2.2.2.2.2.2.2.2.2

/-- Witness for C6: 19:30+02:00 is emitted as the 17:30 UTC instant. -/
theorem format_dt_aware_utc_witness :
    ∃ u : PyDateTime,
      toSeconds u = toSeconds ⟨2024, 6, 1, 19, 30, 0, some 7200⟩ - 7200 ∧
      u.tz = some 0 ∧
      1 ≤ u.month ∧ u.month ≤ 12 ∧ 1 ≤ u.day ∧ u.day ≤ 31 ∧
      0 ≤ u.hour ∧ u.hour ≤ 23 ∧ 0 ≤ u.minute ∧ u.minute ≤ 59 ∧
      0 ≤ u.second ∧ u.second ≤ 59 ∧
      format_dt 0 (PyVal.datetime ⟨2024, 6, 1, 19, 30, 0, some 7200⟩) =
        .ok (fmtStamp u, false) :=
  format_dt_aware_utc 0 7200 ⟨2024, 6, 1, 19, 30, 0, some 7200⟩ rfl

/-- C7: a record without `start` contributes no lines and exactly one
warning, and the number of complete emitted blocks (one `END:VEVENT`
line each) is the input count minus the dropped count. -/
theorem build_ics_drop_accounting (loc : Int) (ns : Str) (gen : Nat → Str)
    (evs : List Event) :
    (build_icsLines loc ns gen evs).1.count "END:VEVENT".toList
      = evs.length - evs.countP (fun e => !emitsBlock loc e) ∧
    ∀ (c : Nat) (ev : Event), ev.start = none →
      (processEvent loc ns gen c ev).1 = [] ∧
      (processEvent loc ns gen c ev).2.1 =
        [LogEntry.warnNoStart (_escape (ev.summary.getD "No title".toList))] := by
  constructor
  · have hb : (build_icsLines loc ns gen evs).1 =
        headerLines ++ ((runEvents loc ns gen 0 evs).1 ++ [footerLine]) := by
      simp [build_icsLines]
    rw [hb, List.count_append, List.count_append]
    have h0 : headerLines.count "END:VEVENT".toList = 0 := by decide
    have h2 : List.count "END:VEVENT".toList [footerLine] = 0 := by decide
    rw [h0, runEvents_count, h2]
    have hlen : evs.length = evs.countP (fun e => emitsBlock loc e) +
        evs.countP (fun e => !emitsBlock loc e) := by
      simpa using evs.length_eq_countP_add_countP (fun e => emitsBlock loc e)
    omega
  · intro c ev h
    exact processEvent_noStart loc ns gen c ev h

/-- Witness for C7 at a record with no `start`. -/
theorem build_ics_drop_accounting_witness :
    (build_icsLines 0 [] (fun _ => []) [{ start := none }]).1.count
      "END:VEVENT".toList = 0 ∧
    (processEvent 0 [] (fun _ => []) 0 { start := none }).1 = [] ∧
    (processEvent 0 [] (fun _ => []) 0 { start := none }).2.1 =
      [LogEntry.warnNoStart (_escape "No title".toList)] := by
  have h := build_ics_drop_accounting 0 [] (fun _ => []) [{ start := none }]
  refine ⟨?_, (h.2 0 { start := none } rfl).1, (h.2 0 { start := none } rfl).2⟩
  rw [h.1]
  decide

/-- C8: `build_ics` is total and processes records independently: for
any split of the input around a record `ev` (faulting or not), the
document is the header, the lines of the records before `ev`, the lines
`ev` itself contributes, the lines of the records after `ev`, and the
footer, CRLF-joined.  In particular every record after a faulting one
is still processed. -/
theorem build_ics_total_and_compositional (loc : Int) (ns : Str)
    (gen : Nat → Str) (pre : List Event) (ev : Event) (post : List Event) :
    build_ics loc ns gen (pre ++ ev :: post) =
      List.intercalate crlf
        (headerLines ++
         (runEvents loc ns gen 0 pre).1 ++
         (processEvent loc ns gen (runEvents loc ns gen 0 pre).2.2 ev).1 ++
         (runEvents loc ns gen
           (processEvent loc ns gen
             (runEvents loc ns gen 0 pre).2.2 ev).2.2 post).1 ++
         [footerLine]) := by
  unfold build_ics
  congr 1
  simp only [build_icsLines]
  rw [runEvents_append loc ns gen pre (ev :: post) 0]
  simp only [runEvents]
  simp [List.append_assoc]

/-- C9 counterexample: two records supplying the same uid `"X"` yield a
document whose `UID:` lines are not pairwise distinct, although both
blocks are emitted. -/
theorem build_ics_duplicate_uid_counterexample :
    ¬ (((build_icsLines 0 [] (fun _ => [])
      [{ uid := some "X".toList, start := some (PyVal.date 2025 1 2) },
       { uid := some "X".toList, start := some (PyVal.date 2025 1 3) }]).1.filterMap
        uidOf).Nodup) ∧
    (build_icsLines 0 [] (fun _ => [])
      [{ uid := some "X".toList, start := some (PyVal.date 2025 1 2) },
       { uid := some "X".toList, start := some (PyVal.date 2025 1 3) }]).1.count
        "END:VEVENT".toList = 2 :=
  ⟨by decide, by decide⟩

/-- C9 (amended): when the provided uids are pairwise distinct and the
fresh-uid generator is injective and never collides with a provided
uid (the idealised behaviour of `uuid.uuid4()`), the `UID:` lines of
the document are pairwise distinct, even when records omit `uid`. -/
theorem build_ics_uids_nodup (loc : Int) (ns : Str) (gen : Nat → Str)
    (evs : List Event)
    (h1 : (providedUids evs).Nodup)
    (h2 : ∀ (n : Nat) (s : Str), s ∈ providedUids evs → gen n ≠ s)
    (h3 : ∀ i j : Nat, i ≠ j → gen i ≠ gen j) :
    ((build_icsLines loc ns gen evs).1.filterMap uidOf).Nodup := by
  have hb : (build_icsLines loc ns gen evs).1 =
      headerLines ++ ((runEvents loc ns gen 0 evs).1 ++ [footerLine]) := by
    simp [build_icsLines]
  rw [hb, List.filterMap_append, List.filterMap_append]
  have hh : headerLines.filterMap uidOf = [] := by decide
  have hf : List.filterMap uidOf [footerLine] = [] := by decide
  rw [hh, hf, List.nil_append, List.append_nil, runEvents_uids]
  exact emittedUids_nodup loc gen evs 0 h1 h2 h3

/-- Witness for the amended C9: two records omitting `uid`, with an
injective generator. -/
theorem build_ics_uids_nodup_witness :
    ((build_icsLines 0 [] (fun n => List.replicate (n + 1) 'u')
      [{ start := some (PyVal.date 2025 1 2) },
       { start := some (PyVal.date 2025 1 3) }]).1.filterMap uidOf).Nodup := by
  apply build_ics_uids_nodup
  · decide
  · intro n s hs
    exact absurd hs (List.not_mem_nil s)
  · intro i j hij he
    apply hij
    have hl := congrArg List.length he
    simp at hl
    omega

/-- C10: the escaped text contains no raw newline, so a property line
built from any tag without newlines and an escaped text contains no
CRLF separator: it occupies exactly one line of the CRLF-joined
document. -/
theorem escape_text_single_line (s : Str) :
    '\n' ∉ _escape s ∧
    ∀ p : Str, '\n' ∉ p → ¬ crlf <:+: p ++ _escape s := by
  refine ⟨escape_no_newline s, ?_⟩
  intro p hp hinf
  obtain ⟨a, b, hab⟩ := hinf
  have hmem : '\n' ∈ p ++ _escape s := by
    rw [← hab]
    exact List.mem_append.mpr (Or.inl (List.mem_append.mpr (Or.inr (by decide))))
  rcases List.mem_append.mp hmem with h | h
  · exact hp h
  · exact escape_no_newline s h

/-- Witness for C10 at a concrete newline-containing text. -/
theorem escape_text_single_line_witness :
    '\n' ∉ _escape "A\nB".toList ∧
    ∀ p : Str, '\n' ∉ p → ¬ crlf <:+: p ++ _escape "A\nB".toList :=
  escape_text_single_line "A\nB".toList
